import Mathlib

/-!
Shallow embedding of the mexc-monitor alerting engine
(`internal/monitor/monitor.go`, `internal/mexc/client.go`).

Timestamps are modelled as `ℤ` (Go `time.Time` under its total order:
`Before` is `<`, `Equal` is `=`, `After` is `>`), prices and quantities as
`ℚ` (Go `float64`), and accumulated volume as `ℤ` (Go `int`; the Go
conversion `int(x)` truncates toward zero).
-/

/-- A price sample, from `PriceData {Price float64; Timestamp time.Time}`. -/
structure PriceData where
  price : ℚ
  timestamp : ℤ
deriving DecidableEq

/-- A volume accumulator, from `VolumeData {Volume int; Timestamp time.Time}`. -/
structure VolumeData where
  volume : ℤ
  timestamp : ℤ
deriving DecidableEq

/-- The threshold configuration read from the settings store each pass,
from `database.Settings {TimeInterval int; PriceChange float64; MinVolume int}`. -/
structure Settings where
  timeInterval : ℤ
  priceChange : ℚ
  minVolume : ℤ
deriving DecidableEq

/-- Go `int(q)` on a nonnegative or negative rational: truncation toward zero. -/
def goTrunc (q : ℚ) : ℤ :=
  q.num.tdiv q.den

/-- One observed trade after numeric parsing (`mexc.TradeData` /
`mexc.TradeResponse` with `Price` and `Qty` parsed). -/
structure GoTrade where
  price : ℚ
  qty : ℚ
deriving DecidableEq

/-- Per-trade notional, `int(price * quantity)` in both ingestion paths. -/
def tradeNotional (t : GoTrade) : ℤ :=
  goTrunc (t.price * t.qty)

/-- `Monitor.handleTrade`, volume-accounting part: add the truncated notional
to the symbol's accumulator, creating it if absent; stamp `time.Now()`. -/
def handleTrade (vol : Option VolumeData) (t : GoTrade) (now : ℤ) : Option VolumeData :=
  match vol with
  | some v => some ⟨v.volume + tradeNotional t, now⟩
  | none => some ⟨tradeNotional t, now⟩

/-- Streaming ingestion of a list of trades for one symbol: `handleTrade`
applied once per trade, in order. -/
def streamIngest (vol : Option VolumeData) (trades : List GoTrade) (now : ℤ) :
    Option VolumeData :=
  trades.foldl (fun v t => handleTrade v t now) vol

/-- The `totalVolume` computed by `Monitor.pollPrices` for one symbol:
`totalVolume += int(price * qty)` over the recent-trades snapshot,
starting from `0`. -/
def pollVolume (trades : List GoTrade) : ℤ :=
  trades.foldl (fun acc t => acc + tradeNotional t) 0

/-- Volume effect of `Monitor.pollPrices` for one symbol: the accumulator is
assigned (`m.volumeData[symbol] = &VolumeData{...}`) the snapshot total,
whatever was there before. -/
def pollIngest (_vol : Option VolumeData) (trades : List GoTrade) (now : ℤ) :
    Option VolumeData :=
  some ⟨pollVolume trades, now⟩

/-- The backward scan of `Monitor.analyzeData` that determines `startPrice`:
walk the history from the most recent sample down and take the first sample
whose timestamp is `Before` or `Equal` to `targetTime`; if none is found and
the history is non-empty, fall back to the oldest sample (`history[0]`);
for empty history the Go zero value `0.0` remains. -/
def startPriceOf (history : List PriceData) (targetTime : ℤ) : ℚ :=
  match history.reverse.find? (fun p => decide (p.timestamp ≤ targetTime)) with
  | some p => p.price
  | none =>
    match history with
    | [] => 0
    | h :: _ => h.price

/-- The percent change computed by `Monitor.analyzeData`:
`((currentPrice - startPrice) / startPrice) * 100` when `startPrice > 0`,
else the initial value `0.0`. -/
def priceChangeOf (currentPrice startPrice : ℚ) : ℚ :=
  if 0 < startPrice then (currentPrice - startPrice) / startPrice * 100 else 0

/-- Result of `db.IsBlacklisted(symbol)`: `none` models a database error
(the symbol is then skipped), `some b` a successful answer. -/
abbrev BlacklistAnswer := Option Bool

/-- The per-symbol loop body of `Monitor.analyzeData`, as the decision
whether this symbol fires an alert in this pass. `now` is the pass time and
the cutoff and target time both equal `now - settings.TimeInterval`.
Mirrors, in order: the empty-history skip, the stale-latest-price skip, the
blacklist skip (including the error case), the missing-or-stale-volume skip,
the `startPrice` scan, the percent-change computation, and the final
threshold test `volData.Volume >= settings.MinVolume &&
(priceChange >= settings.PriceChange || priceChange <= -settings.PriceChange)`. -/
def symbolAlerts (s : Settings) (now : ℤ) (history : List PriceData)
    (volData : Option VolumeData) (blacklist : BlacklistAnswer) : Bool :=
  match history.getLast? with
  | none => false
  | some last =>
    let cutoffTime := now - s.timeInterval
    if last.timestamp < cutoffTime then false
    else
      match blacklist with
      | none => false
      | some true => false
      | some false =>
        match volData with
        | none => false
        | some vd =>
          if vd.timestamp < cutoffTime then false
          else
            let startPrice := startPriceOf history (now - s.timeInterval)
            let priceChange := priceChangeOf last.price startPrice
            decide (s.minVolume ≤ vd.volume) &&
              (decide (s.priceChange ≤ priceChange) ||
                decide (priceChange ≤ -s.priceChange))

/-- The in-memory store guarded by the monitor's mutex:
`priceHistory map[string][]*PriceData` and `volumeData map[string]*VolumeData`. -/
structure Store where
  priceHistory : String → List PriceData
  volumeData : String → Option VolumeData

/-- One iteration of the symbol loop in `Monitor.analyzeData`, acting on the
running volume map and the list of alert attempts emitted so far. When the
symbol fires, `bot.SendAlert` is attempted (its outcome `deliver sym` is
recorded but only logged) and the accumulator is deleted unconditionally
(`delete(m.volumeData, symbol)`); otherwise nothing changes. -/
def passSymbol (s : Settings) (now : ℤ) (blacklist : String → BlacklistAnswer)
    (deliver : String → Bool) (hist : String → List PriceData)
    (acc : (String → Option VolumeData) × List (String × Bool)) (sym : String) :
    (String → Option VolumeData) × List (String × Bool) :=
  if symbolAlerts s now (hist sym) (acc.1 sym) (blacklist sym) then
    (fun x => if x = sym then none else acc.1 x, acc.2 ++ [(sym, deliver sym)])
  else acc

/-- One full analysis pass of `Monitor.analyzeData` over the symbols that
have a price-history entry (`symbols` is the map-iteration order, which Go
leaves unspecified). Returns the volume map after the pass and the list of
alert attempts `(symbol, delivered?)` in emission order. -/
def analyzePass (s : Settings) (now : ℤ) (blacklist : String → BlacklistAnswer)
    (deliver : String → Bool) (hist : String → List PriceData)
    (vol : String → Option VolumeData) (symbols : List String) :
    (String → Option VolumeData) × List (String × Bool) :=
  symbols.foldl (passSymbol s now blacklist deliver hist) (vol, [])

/-- `Monitor.analyzeData` as a transformation of the whole store.
The function body contains no write to `m.priceHistory`; its only state
mutation is the `delete(m.volumeData, symbol)` on alert, so the price
history is carried through unchanged. -/
def analyzeStore (s : Settings) (now : ℤ) (blacklist : String → BlacklistAnswer)
    (deliver : String → Bool) (st : Store) (symbols : List String) :
    Store × List (String × Bool) :=
  let r := analyzePass s now blacklist deliver st.priceHistory st.volumeData symbols
  (⟨st.priceHistory, r.1⟩, r.2)

/-- Price-history part of `Monitor.cleanup` for one symbol: keep exactly the
samples with `priceData.Timestamp.After(cutoffTime)`. -/
def cleanupHistory (cutoff : ℤ) (history : List PriceData) : List PriceData :=
  history.filter (fun p => decide (cutoff < p.timestamp))

/-- Volume part of `Monitor.cleanup` for one symbol: delete the accumulator
when `volData.Timestamp.Before(cutoffTime)`. -/
def cleanupVolume (cutoff : ℤ) (vol : Option VolumeData) : Option VolumeData :=
  match vol with
  | some v => if v.timestamp < cutoff then none else some v
  | none => none

/-- `Monitor.cleanup` on the whole store (blacklist expiry lives in the
external database and is not part of the in-memory state). -/
def cleanupStore (cutoff : ℤ) (st : Store) : Store :=
  ⟨fun sym => cleanupHistory cutoff (st.priceHistory sym),
   fun sym => cleanupVolume cutoff (st.volumeData sym)⟩

/-- One scheduling decision observed by an iteration of `Client.readMessages`:
whether the shutdown context has fired, whether `conn.ReadMessage` succeeds,
and whether a reconnect attempt (`Client.reconnect`, i.e. close + backoff +
`Connect`) would succeed. -/
structure LoopEvent where
  ctxDone : Bool
  readOk : Bool
  reconnectOk : Bool
deriving DecidableEq

/-- One iteration of the `for` loop in `Client.readMessages`, given whether a
connection is currently held. `none` means the function returns (the read
loop terminates); `some c` means the loop continues with connection state `c`.
Mirrors, in order: the `ctx.Done()` select arm, the `conn == nil` early
return, a successful read (handle the message and continue), a failed read
followed by a successful reconnect (continue, connected), and a failed read
followed by a failed reconnect (sleep the backoff and continue, with the
connection torn down by `reconnect`). -/
def readLoopStep (connected : Bool) (e : LoopEvent) : Option Bool :=
  if e.ctxDone then none
  else if !connected then none
  else if e.readOk then some connected
  else if e.reconnectOk then some true
  else some false

/-- Run `Client.readMessages` over a finite prefix of scheduling decisions:
`none` when the loop has returned within the trace, `some c` when it is
still running afterwards with connection state `c`. -/
def readLoopRun (connected : Bool) (events : List LoopEvent) : Option Bool :=
  match events with
  | [] => some connected
  | e :: rest =>
    match readLoopStep connected e with
    | none => none
    | some c => readLoopRun c rest

/-- C1: for a symbol that reaches the threshold check (non-empty fresh price
history, a successful non-blacklisted answer, fresh volume accumulator), the
alert fires if and only if the accumulated volume is at least `MinVolume` and
the absolute percent change is at least `PriceChange`; both comparisons are
inclusive and both signs of movement qualify. -/
theorem alert_fires_iff_thresholds (s : Settings) (now : ℤ) (history : List PriceData)
    (last : PriceData) (vd : VolumeData)
    (hlast : history.getLast? = some last)
    (hfresh : now - s.timeInterval ≤ last.timestamp)
    (hvfresh : now - s.timeInterval ≤ vd.timestamp) :
    symbolAlerts s now history (some vd) (some false) = true ↔
      (s.minVolume ≤ vd.volume ∧
        s.priceChange ≤
          |priceChangeOf last.price (startPriceOf history (now - s.timeInterval))|) := by
  unfold symbolAlerts
  rw [hlast]
  simp only [not_lt.mpr hfresh, if_false, if_neg (not_lt.mpr hvfresh),
    Bool.and_eq_true, Bool.or_eq_true, decide_eq_true_eq, le_abs, le_neg]

theorem alert_fires_iff_thresholds_witness :
    ([(⟨100, 0⟩ : PriceData), ⟨98, 5⟩].getLast? = some ⟨98, 5⟩) ∧
    ((5 : ℤ) - 5 ≤ 5) ∧ ((5 : ℤ) - 5 ≤ 3) ∧
    (symbolAlerts ⟨5, 2, 5000⟩ 5 [⟨100, 0⟩, ⟨98, 5⟩] (some ⟨5000, 3⟩) (some false) = true ↔
      ((5000 : ℤ) ≤ 5000 ∧
        (2 : ℚ) ≤ |priceChangeOf 98 (startPriceOf [⟨100, 0⟩, ⟨98, 5⟩] (5 - 5))|)) :=
  ⟨by decide, by decide, by decide,
    alert_fires_iff_thresholds ⟨5, 2, 5000⟩ 5 [⟨100, 0⟩, ⟨98, 5⟩] ⟨98, 5⟩ ⟨5000, 3⟩
      (by decide) (by decide) (by decide)⟩

/-- C3: a symbol can fire only when all gating checks pass: non-empty history
whose latest sample is no older than `now - TimeInterval`, a successful
blacklist answer of `false`, and a volume accumulator no older than
`now - TimeInterval`. In particular a symbol with no accumulator, a stale
one, or an active suppression never alerts. -/
theorem alert_requires_fresh_state (s : Settings) (now : ℤ) (history : List PriceData)
    (volData : Option VolumeData) (blacklist : BlacklistAnswer)
    (h : symbolAlerts s now history volData blacklist = true) :
    history ≠ [] ∧
    (∃ last, history.getLast? = some last ∧ now - s.timeInterval ≤ last.timestamp) ∧
    blacklist = some false ∧
    (∃ vd, volData = some vd ∧ now - s.timeInterval ≤ vd.timestamp) := by
  unfold symbolAlerts at h
  rcases hl : history.getLast? with _ | last
  · rw [hl] at h; simp at h
  rw [hl] at h
  dsimp only at h
  by_cases hfresh : last.timestamp < now - s.timeInterval
  · rw [if_pos hfresh] at h; simp at h
  rw [if_neg hfresh] at h
  rcases blacklist with _ | b
  · simp at h
  rcases b
  · dsimp only at h
    rcases volData with _ | vd
    · simp at h
    dsimp only at h
    by_cases hv : vd.timestamp < now - s.timeInterval
    · rw [if_pos hv] at h; simp at h
    refine ⟨?_, ⟨last, rfl, not_lt.mp hfresh⟩, rfl, ⟨vd, rfl, not_lt.mp hv⟩⟩
    intro hnil
    rw [hnil] at hl
    simp at hl
  · simp at h

theorem alert_requires_fresh_state_witness :
    (symbolAlerts ⟨5, 2, 5000⟩ 5 [⟨100, 0⟩, ⟨97, 5⟩] (some ⟨6000, 4⟩) (some false) = true) ∧
    (([(⟨100, 0⟩ : PriceData), ⟨97, 5⟩] : List PriceData) ≠ [] ∧
      (∃ last, ([(⟨100, 0⟩ : PriceData), ⟨97, 5⟩].getLast? = some last ∧
        (5 : ℤ) - 5 ≤ last.timestamp)) ∧
      (some false : BlacklistAnswer) = some false ∧
      (∃ vd, (some (⟨6000, 4⟩ : VolumeData) = some vd ∧ (5 : ℤ) - 5 ≤ vd.timestamp))) := by
  have h : symbolAlerts ⟨5, 2, 5000⟩ 5 [⟨100, 0⟩, ⟨97, 5⟩]
      (some ⟨6000, 4⟩) (some false) = true := by with_unfolding_all decide
  exact ⟨h, alert_requires_fresh_state ⟨5, 2, 5000⟩ 5 [⟨100, 0⟩, ⟨97, 5⟩]
    (some ⟨6000, 4⟩) (some false) h⟩

/-- C5: the percent change is total: it equals
`(currentPrice - startPrice) / startPrice * 100` whenever `startPrice > 0`
(equivalently, multiplied back by `startPrice` it recovers
`(currentPrice - startPrice) * 100`), and it equals `0` whenever
`startPrice ≤ 0`, so the division is never taken with a zero denominator. -/
theorem priceChange_total_spec (cur sp : ℚ) :
    (0 < sp → priceChangeOf cur sp = (cur - sp) / sp * 100 ∧
      priceChangeOf cur sp * sp = (cur - sp) * 100) ∧
    (sp ≤ 0 → priceChangeOf cur sp = 0) := by
  constructor
  · intro h
    have hsp : sp ≠ 0 := ne_of_gt h
    refine ⟨by simp [priceChangeOf, h], ?_⟩
    simp only [priceChangeOf, if_pos h]
    field_simp
  · intro h
    simp [priceChangeOf, not_lt.mpr h]

theorem priceChange_total_spec_witness :
    ((0 : ℚ) < 100 ∧ priceChangeOf 98 100 = (98 - 100) / 100 * 100 ∧
      priceChangeOf 98 100 * 100 = (98 - 100) * 100) ∧
    ((0 : ℚ) ≤ 0 ∧ priceChangeOf 98 0 = 0) :=
  ⟨⟨by norm_num, (priceChange_total_spec 98 100).1 (by norm_num)⟩,
   ⟨le_refl 0, (priceChange_total_spec 98 0).2 (le_refl 0)⟩⟩

/-- C4: for a non-empty price series the start-price lookup is total, returns
a price from the symbol's own series, returns the price of the latest sample
whose timestamp is at most the target time when one exists (every sample
after it in the series is strictly newer than the target), and falls back to
the oldest sample when no sample qualifies. -/
theorem startPrice_lookup_spec (history : List PriceData) (targetTime : ℤ)
    (hne : history ≠ []) :
    startPriceOf history targetTime ∈ history.map PriceData.price ∧
    ((∃ p ∈ history, p.timestamp ≤ targetTime) →
      ∃ pre q post, history = pre ++ q :: post ∧ q.timestamp ≤ targetTime ∧
        startPriceOf history targetTime = q.price ∧
        ∀ r ∈ post, targetTime < r.timestamp) ∧
    ((∀ p ∈ history, targetTime < p.timestamp) →
      ∃ h0, history.head? = some h0 ∧ startPriceOf history targetTime = h0.price) := by
  rcases hf : history.reverse.find? (fun p => decide (p.timestamp ≤ targetTime)) with _ | q
  · have hall : ∀ p ∈ history, targetTime < p.timestamp := by
      intro p hp
      have := List.find?_eq_none.mp hf p (List.mem_reverse.mpr hp)
      simpa using this
    rcases history with _ | ⟨h0, rest⟩
    · exact absurd rfl hne
    have hsp : startPriceOf (h0 :: rest) targetTime = h0.price := by
      unfold startPriceOf
      rw [hf]
    refine ⟨?_, ?_, ?_⟩
    · rw [hsp]; exact List.mem_map_of_mem PriceData.price (List.mem_cons_self h0 rest)
    · rintro ⟨p, hp, hple⟩
      exact absurd hple (not_le.mpr (hall p hp))
    · intro _
      exact ⟨h0, rfl, hsp⟩
  · have hq := List.find?_some hf
    have hqle : q.timestamp ≤ targetTime := by simpa using hq
    obtain ⟨-, as, bs, hrev, hfail⟩ := List.find?_eq_some.mp hf
    have hhist : history = bs.reverse ++ q :: as.reverse := by
      have := congrArg List.reverse hrev
      simpa [List.reverse_append] using this
    have hsp : startPriceOf history targetTime = q.price := by
      unfold startPriceOf
      rw [hf]
    refine ⟨?_, ?_, ?_⟩
    · rw [hsp, hhist]
      simp
    · intro _
      refine ⟨bs.reverse, q, as.reverse, hhist, hqle, hsp, ?_⟩
      intro r hr
      have := hfail r (List.mem_reverse.mp hr)
      simpa using this
    · intro hall
      have : targetTime < q.timestamp := by
        apply hall
        rw [hhist]
        simp
      exact absurd hqle (not_le.mpr this)

theorem startPrice_lookup_spec_witness :
    (startPriceOf [⟨100, 0⟩, ⟨98, 5⟩] 0 ∈
      ([⟨100, 0⟩, ⟨98, 5⟩] : List PriceData).map PriceData.price) ∧
    (∃ pre q post, ([⟨100, 0⟩, ⟨98, 5⟩] : List PriceData) = pre ++ q :: post ∧
      q.timestamp ≤ 0 ∧ startPriceOf [⟨100, 0⟩, ⟨98, 5⟩] 0 = q.price ∧
      ∀ r ∈ post, (0 : ℤ) < r.timestamp) ∧
    (∃ h0, ([⟨100, 0⟩, ⟨98, 5⟩] : List PriceData).head? = some h0 ∧
      startPriceOf [⟨100, 0⟩, ⟨98, 5⟩] (-1) = h0.price) :=
  ⟨(startPrice_lookup_spec [⟨100, 0⟩, ⟨98, 5⟩] 0 (by decide)).1,
   (startPrice_lookup_spec [⟨100, 0⟩, ⟨98, 5⟩] 0 (by decide)).2.1
     ⟨⟨100, 0⟩, by decide, by decide⟩,
   (startPrice_lookup_spec [⟨100, 0⟩, ⟨98, 5⟩] (-1) (by decide)).2.2 (by decide)⟩

theorem pollVolume_shift (trades : List GoTrade) (c : ℤ) :
    trades.foldl (fun acc t => acc + tradeNotional t) c = c + pollVolume trades := by
  induction trades generalizing c with
  | nil => simp [pollVolume]
  | cons t ts ih =>
    have h0 : pollVolume (t :: ts) = tradeNotional t + pollVolume ts := by
      show List.foldl _ (0 + tradeNotional t) ts = _
      rw [ih (0 + tradeNotional t), zero_add]
    rw [List.foldl_cons, ih (c + tradeNotional t), h0, add_assoc]

theorem streamIngest_some (trades : List GoTrade) (hne : trades ≠ []) (v : VolumeData)
    (now : ℤ) :
    streamIngest (some v) trades now = some ⟨v.volume + pollVolume trades, now⟩ := by
  induction trades generalizing v with
  | nil => exact absurd rfl hne
  | cons t ts ih =>
    have hstep : streamIngest (some v) (t :: ts) now =
        streamIngest (some ⟨v.volume + tradeNotional t, now⟩) ts now := rfl
    rcases ts with _ | ⟨t2, ts2⟩
    · rw [hstep]
      show some _ = some _
      have : pollVolume [t] = tradeNotional t := by
        show (0 : ℤ) + tradeNotional t = tradeNotional t
        rw [zero_add]
      rw [this]
    · rw [hstep, ih (by simp) ⟨v.volume + tradeNotional t, now⟩]
      have : pollVolume (t :: t2 :: ts2) = tradeNotional t + pollVolume (t2 :: ts2) := by
        show List.foldl _ (0 + tradeNotional t) (t2 :: ts2) = _
        rw [pollVolume_shift, zero_add]
      rw [this]
      simp [add_assoc]

/-- C6 counterexample: with a pre-existing accumulator of volume 10, one
trade of notional 6 leaves volume 16 through the streaming handler but
volume 6 through the polling path, so the two ingestion paths are not
equivalent in general (the polling path overwrites instead of adding). -/
theorem ingest_paths_differ_cx :
    streamIngest (some ⟨10, 0⟩) [⟨2, 3⟩] 5 ≠ pollIngest (some ⟨10, 0⟩) [⟨2, 3⟩] 5 := by
  with_unfolding_all decide

/-- C6 amended: both paths compute the per-trade notional as the truncated
product `int(price * qty)` but combine the notionals differently: the
polling path assigns the snapshot total to the accumulator, overwriting any
existing value and creating a zero-volume entry even when the snapshot has
no trades, while the streaming handler leaves the accumulator untouched for
an empty trade list and otherwise adds the notionals to it, creating it if
absent; consequently the two paths agree whenever the accumulator was
absent beforehand and at least one trade was observed. -/
theorem ingest_paths_add_vs_overwrite (trades : List GoTrade) (now : ℤ) :
    (∀ w : Option VolumeData, pollIngest w trades now = some ⟨pollVolume trades, now⟩) ∧
    (∀ vol : Option VolumeData, streamIngest vol [] now = vol) ∧
    (∀ (v : VolumeData) (t : GoTrade) (ts : List GoTrade),
      streamIngest (some v) (t :: ts) now =
        some ⟨v.volume + pollVolume (t :: ts), now⟩) ∧
    (∀ (t : GoTrade) (ts : List GoTrade),
      streamIngest none (t :: ts) now = some ⟨pollVolume (t :: ts), now⟩) ∧
    (∀ (t : GoTrade) (ts : List GoTrade),
      streamIngest none (t :: ts) now = pollIngest none (t :: ts) now) := by
  have hnone : ∀ (t : GoTrade) (ts : List GoTrade),
      streamIngest none (t :: ts) now = some ⟨pollVolume (t :: ts), now⟩ := by
    intro t ts
    have hstep : streamIngest none (t :: ts) now =
        streamIngest (some ⟨tradeNotional t, now⟩) ts now := rfl
    rcases ts with _ | ⟨t2, ts2⟩
    · rw [hstep]
      show some _ = some _
      have : pollVolume [t] = tradeNotional t := by
        show (0 : ℤ) + tradeNotional t = tradeNotional t
        rw [zero_add]
      rw [this]
    · rw [hstep, streamIngest_some (t2 :: ts2) (by simp) ⟨tradeNotional t, now⟩ now]
      have : pollVolume (t :: t2 :: ts2) = tradeNotional t + pollVolume (t2 :: ts2) := by
        show List.foldl _ (0 + tradeNotional t) (t2 :: ts2) = _
        rw [pollVolume_shift, zero_add]
      show _ = some (⟨pollVolume (t :: t2 :: ts2), now⟩ : VolumeData)
      rw [this]
  refine ⟨fun w => rfl, fun vol => rfl, ?_, hnone, ?_⟩
  · intro v t ts
    exact streamIngest_some (t :: ts) (by simp) v now
  · intro t ts
    rw [hnone t ts]
    rfl

/-- C7 counterexample: a sample whose timestamp equals the retention horizon
(`cutoff = 5`, sample timestamp `5`) is removed by the pruning pass, because
the code keeps only samples with `Timestamp.After(cutoffTime)`; the claim
says such a boundary sample is retained. -/
theorem prune_boundary_cx :
    cleanupHistory 5 [⟨1, 5⟩] = [] ∧ (⟨1, 5⟩ : PriceData).timestamp = 5 := by
  decide

/-- C7 amended: the pruning pass removes exactly the price samples whose
timestamp is less than or equal to the horizon (so a sample exactly at the
boundary is removed, and every sample strictly newer is retained), keeps the
remaining samples in their original order (a sublist of the original), and removes a volume
accumulator exactly when its `lastUpdatedAt` is strictly older than the
horizon. -/
theorem prune_spec_amended (cutoff : ℤ) (history : List PriceData) (v : VolumeData) :
    (cleanupHistory cutoff history).Sublist history ∧
    (∀ p ∈ history, p ∈ cleanupHistory cutoff history ↔ cutoff < p.timestamp) ∧
    (v.timestamp < cutoff → cleanupVolume cutoff (some v) = none) ∧
    (cutoff ≤ v.timestamp → cleanupVolume cutoff (some v) = some v) := by
  refine ⟨List.filter_sublist _, ?_, ?_, ?_⟩
  · intro p hp
    simp [cleanupHistory, List.mem_filter, hp]
  · intro h
    simp [cleanupVolume, h]
  · intro h
    simp [cleanupVolume, not_lt.mpr h]

theorem prune_spec_amended_witness :
    ((cleanupHistory 5 [⟨1, 7⟩]).Sublist [⟨1, 7⟩]) ∧
    ((⟨1, 7⟩ : PriceData) ∈ cleanupHistory 5 [⟨1, 7⟩] ↔ (5 : ℤ) < 7) ∧
    cleanupVolume 5 (some ⟨3, 2⟩) = none ∧
    cleanupVolume 5 (some ⟨3, 7⟩) = some ⟨3, 7⟩ :=
  ⟨(prune_spec_amended 5 [⟨1, 7⟩] ⟨3, 2⟩).1,
   (prune_spec_amended 5 [⟨1, 7⟩] ⟨3, 2⟩).2.1 ⟨1, 7⟩ (by decide),
   (prune_spec_amended 5 [⟨1, 7⟩] ⟨3, 2⟩).2.2.1 (by decide),
   (prune_spec_amended 5 [⟨1, 7⟩] ⟨3, 7⟩).2.2.2 (by decide)⟩

/-- C8: pruning the whole store twice with the same cutoff and no
intervening writes yields the same price histories and volume accumulators
as pruning once. -/
theorem prune_idempotent (cutoff : ℤ) (st : Store) :
    cleanupStore cutoff (cleanupStore cutoff st) = cleanupStore cutoff st := by
  unfold cleanupStore
  simp only [Store.mk.injEq]
  constructor <;> funext sym
  · simp [cleanupHistory, List.filter_filter]
  · rcases h : st.volumeData sym with _ | v
    · simp [cleanupVolume]
    · by_cases hv : v.timestamp < cutoff <;> simp [cleanupVolume, hv]

/-- C9: contrary to the indefinite-retry claim, the read loop of the data
source client terminates after a single failed reconnect attempt: with no
shutdown signal anywhere in the trace, a read failure whose reconnect fails
leaves the connection torn down, and the next iteration's nil-connection
check returns from `readMessages`, ending all retries (the subsequent event
would have allowed a successful reconnect, but is never reached). -/
theorem readLoop_exits_after_failed_reconnect :
    readLoopRun true [⟨false, false, false⟩, ⟨false, true, true⟩] = none ∧
    ∀ e ∈ [(⟨false, false, false⟩ : LoopEvent), ⟨false, true, true⟩], e.ctxDone = false := by
  decide

theorem symbolAlerts_none_vol (s : Settings) (now : ℤ) (history : List PriceData)
    (blacklist : BlacklistAnswer) :
    symbolAlerts s now history none blacklist = false := by
  unfold symbolAlerts
  rcases history.getLast? with _ | last
  · rfl
  dsimp only
  by_cases h : last.timestamp < now - s.timeInterval
  · rw [if_pos h]
  rw [if_neg h]
  rcases blacklist with _ | b
  · rfl
  rcases b
  · rfl
  · rfl

theorem pass_attempts_mono (s : Settings) (now : ℤ) (blacklist : String → BlacklistAnswer)
    (deliver : String → Bool) (hist : String → List PriceData) :
    ∀ (symbols : List String) (acc : (String → Option VolumeData) × List (String × Bool))
      (x : String), x ∈ acc.2.map Prod.fst →
      x ∈ (symbols.foldl (passSymbol s now blacklist deliver hist) acc).2.map Prod.fst := by
  intro symbols
  induction symbols with
  | nil => exact fun acc x hx => hx
  | cons sym rest ih =>
    intro acc x hx
    rw [List.foldl_cons]
    apply ih
    unfold passSymbol
    split
    · rw [List.map_append, List.mem_append]
      exact Or.inl hx
    · exact hx

theorem pass_vol_unfired (s : Settings) (now : ℤ) (blacklist : String → BlacklistAnswer)
    (deliver : String → Bool) (hist : String → List PriceData) :
    ∀ (symbols : List String) (acc : (String → Option VolumeData) × List (String × Bool))
      (x : String),
      x ∉ (symbols.foldl (passSymbol s now blacklist deliver hist) acc).2.map Prod.fst →
      (symbols.foldl (passSymbol s now blacklist deliver hist) acc).1 x = acc.1 x := by
  intro symbols
  induction symbols with
  | nil => exact fun acc x _ => rfl
  | cons sym rest ih =>
    intro acc x hx
    rw [List.foldl_cons] at hx ⊢
    by_cases hfire : symbolAlerts s now (hist sym) (acc.1 sym) (blacklist sym) = true
    · have hacc : passSymbol s now blacklist deliver hist acc sym =
          (fun y => if y = sym then none else acc.1 y, acc.2 ++ [(sym, deliver sym)]) := by
        unfold passSymbol
        rw [if_pos hfire]
      rw [hacc] at hx ⊢
      have hne : x ≠ sym := by
        intro hxe
        apply hx
        apply pass_attempts_mono
        subst hxe
        simp
      rw [ih _ x hx]
      simp [hne]
    · have hacc : passSymbol s now blacklist deliver hist acc sym = acc := by
        unfold passSymbol
        rw [if_neg hfire]
      rw [hacc] at hx ⊢
      exact ih acc x hx

theorem pass_vol_fired (s : Settings) (now : ℤ) (blacklist : String → BlacklistAnswer)
    (deliver : String → Bool) (hist : String → List PriceData) :
    ∀ (symbols : List String) (acc : (String → Option VolumeData) × List (String × Bool))
      (x : String),
      x ∈ (symbols.foldl (passSymbol s now blacklist deliver hist) acc).2.map Prod.fst →
      (x ∈ acc.2.map Prod.fst → acc.1 x = none) →
      (symbols.foldl (passSymbol s now blacklist deliver hist) acc).1 x = none := by
  intro symbols
  induction symbols with
  | nil => exact fun acc x hx hinv => hinv hx
  | cons sym rest ih =>
    intro acc x hx hinv
    rw [List.foldl_cons] at hx ⊢
    by_cases hfire : symbolAlerts s now (hist sym) (acc.1 sym) (blacklist sym) = true
    · have hacc : passSymbol s now blacklist deliver hist acc sym =
          (fun y => if y = sym then none else acc.1 y, acc.2 ++ [(sym, deliver sym)]) := by
        unfold passSymbol
        rw [if_pos hfire]
      rw [hacc] at hx ⊢
      refine ih _ x hx ?_
      intro hx2
      by_cases hxe : x = sym
      · simp [hxe]
      · have hmem : x ∈ acc.2.map Prod.fst := by
          simpa [hxe] using hx2
        simpa [hxe] using hinv hmem
    · have hacc : passSymbol s now blacklist deliver hist acc sym = acc := by
        unfold passSymbol
        rw [if_neg hfire]
      rw [hacc] at hx ⊢
      exact ih acc x hx hinv

theorem pass_deliver_invariant (s : Settings) (now : ℤ)
    (blacklist : String → BlacklistAnswer) (d₁ d₂ : String → Bool)
    (hist : String → List PriceData) :
    ∀ (symbols : List String) (v : String → Option VolumeData)
      (a₁ a₂ : List (String × Bool)), a₁.map Prod.fst = a₂.map Prod.fst →
      (symbols.foldl (passSymbol s now blacklist d₁ hist) (v, a₁)).1 =
        (symbols.foldl (passSymbol s now blacklist d₂ hist) (v, a₂)).1 ∧
      (symbols.foldl (passSymbol s now blacklist d₁ hist) (v, a₁)).2.map Prod.fst =
        (symbols.foldl (passSymbol s now blacklist d₂ hist) (v, a₂)).2.map Prod.fst := by
  intro symbols
  induction symbols with
  | nil => exact fun v a₁ a₂ h => ⟨rfl, h⟩
  | cons sym rest ih =>
    intro v a₁ a₂ h
    rw [List.foldl_cons, List.foldl_cons]
    by_cases hfire : symbolAlerts s now (hist sym) (v sym) (blacklist sym) = true
    · have h1 : passSymbol s now blacklist d₁ hist (v, a₁) sym =
          (fun y => if y = sym then none else v y, a₁ ++ [(sym, d₁ sym)]) := by
        unfold passSymbol
        rw [if_pos hfire]
      have h2 : passSymbol s now blacklist d₂ hist (v, a₂) sym =
          (fun y => if y = sym then none else v y, a₂ ++ [(sym, d₂ sym)]) := by
        unfold passSymbol
        rw [if_pos hfire]
      rw [h1, h2]
      refine ih _ _ _ ?_
      simp [h]
    · have h1 : passSymbol s now blacklist d₁ hist (v, a₁) sym = (v, a₁) := by
        unfold passSymbol
        rw [if_neg hfire]
      have h2 : passSymbol s now blacklist d₂ hist (v, a₂) sym = (v, a₂) := by
        unfold passSymbol
        rw [if_neg hfire]
      rw [h1, h2]
      exact ih v a₁ a₂ h

/-- C2: when a symbol fires in a pass, its accumulator is removed whatever
the delivery outcomes are (the resulting volume map and the set of alerted
symbols are identical for any two delivery-outcome assignments, so a failed
delivery neither retains volume nor blocks the other symbols of the pass),
and a later pass that still sees the cleared accumulator (no new trades for
that symbol) cannot fire a second alert for it, whatever settings, time,
price history and blacklist answer that pass uses. -/
theorem alert_fire_and_clear (s : Settings) (now : ℤ)
    (blacklist : String → BlacklistAnswer) (d₁ d₂ : String → Bool)
    (hist : String → List PriceData) (vol : String → Option VolumeData)
    (symbols : List String) (sym : String)
    (hfired : sym ∈ (analyzePass s now blacklist d₁ hist vol symbols).2.map Prod.fst) :
    (analyzePass s now blacklist d₁ hist vol symbols).1 =
      (analyzePass s now blacklist d₂ hist vol symbols).1 ∧
    (analyzePass s now blacklist d₁ hist vol symbols).2.map Prod.fst =
      (analyzePass s now blacklist d₂ hist vol symbols).2.map Prod.fst ∧
    (analyzePass s now blacklist d₁ hist vol symbols).1 sym = none ∧
    (∀ (s2 : Settings) (now2 : ℤ) (hist2 : List PriceData) (bl2 : BlacklistAnswer),
      symbolAlerts s2 now2 hist2
        ((analyzePass s now blacklist d₁ hist vol symbols).1 sym) bl2 = false) := by
  obtain ⟨hv, ha⟩ := pass_deliver_invariant s now blacklist d₁ d₂ hist symbols vol [] [] rfl
  have hnone : (analyzePass s now blacklist d₁ hist vol symbols).1 sym = none :=
    pass_vol_fired s now blacklist d₁ hist symbols (vol, []) sym hfired (by simp)
  refine ⟨hv, ha, hnone, ?_⟩
  intro s2 now2 hist2 bl2
  rw [hnone]
  exact symbolAlerts_none_vol s2 now2 hist2 bl2

theorem alert_fire_and_clear_witness :
    ( "A" ∈ (analyzePass ⟨5, 2, 5000⟩ 5 (fun _ => some false) (fun _ => false)
        (fun _ => [⟨100, 0⟩, ⟨98, 5⟩]) (fun _ => some ⟨5000, 3⟩) [ "A" ]).2.map Prod.fst) ∧
    ((analyzePass ⟨5, 2, 5000⟩ 5 (fun _ => some false) (fun _ => false)
        (fun _ => [⟨100, 0⟩, ⟨98, 5⟩]) (fun _ => some ⟨5000, 3⟩) [ "A" ]).1 =
      (analyzePass ⟨5, 2, 5000⟩ 5 (fun _ => some false) (fun _ => true)
        (fun _ => [⟨100, 0⟩, ⟨98, 5⟩]) (fun _ => some ⟨5000, 3⟩) [ "A" ]).1 ∧
    (analyzePass ⟨5, 2, 5000⟩ 5 (fun _ => some false) (fun _ => false)
        (fun _ => [⟨100, 0⟩, ⟨98, 5⟩]) (fun _ => some ⟨5000, 3⟩) [ "A" ]).2.map Prod.fst =
      (analyzePass ⟨5, 2, 5000⟩ 5 (fun _ => some false) (fun _ => true)
        (fun _ => [⟨100, 0⟩, ⟨98, 5⟩]) (fun _ => some ⟨5000, 3⟩) [ "A" ]).2.map Prod.fst ∧
    (analyzePass ⟨5, 2, 5000⟩ 5 (fun _ => some false) (fun _ => false)
        (fun _ => [⟨100, 0⟩, ⟨98, 5⟩]) (fun _ => some ⟨5000, 3⟩) [ "A" ]).1 "A" = none ∧
    (∀ (s2 : Settings) (now2 : ℤ) (hist2 : List PriceData) (bl2 : BlacklistAnswer),
      symbolAlerts s2 now2 hist2
        ((analyzePass ⟨5, 2, 5000⟩ 5 (fun _ => some false) (fun _ => false)
          (fun _ => [⟨100, 0⟩, ⟨98, 5⟩]) (fun _ => some ⟨5000, 3⟩) [ "A" ]).1 "A")
        bl2 = false)) := by
  have hf : "A" ∈ (analyzePass ⟨5, 2, 5000⟩ 5 (fun _ => some false) (fun _ => false)
      (fun _ => [⟨100, 0⟩, ⟨98, 5⟩]) (fun _ => some ⟨5000, 3⟩) [ "A" ]).2.map Prod.fst := by
    with_unfolding_all decide
  exact ⟨hf, alert_fire_and_clear ⟨5, 2, 5000⟩ 5 (fun _ => some false) (fun _ => false)
    (fun _ => true) (fun _ => [⟨100, 0⟩, ⟨98, 5⟩]) (fun _ => some ⟨5000, 3⟩) [ "A" ] "A" hf⟩

/-- C10: an analysis pass never modifies any symbol's price history; its only
state mutation is removing the volume accumulators of the symbols that fired
in that pass, and every symbol that did not fire keeps its volume
accumulator exactly unchanged. -/
theorem analyze_frame_spec (s : Settings) (now : ℤ)
    (blacklist : String → BlacklistAnswer) (deliver : String → Bool) (st : Store)
    (symbols : List String) :
    (analyzeStore s now blacklist deliver st symbols).1.priceHistory = st.priceHistory ∧
    (∀ x, x ∉ (analyzeStore s now blacklist deliver st symbols).2.map Prod.fst →
      (analyzeStore s now blacklist deliver st symbols).1.volumeData x =
        st.volumeData x) ∧
    (∀ x, x ∈ (analyzeStore s now blacklist deliver st symbols).2.map Prod.fst →
      (analyzeStore s now blacklist deliver st symbols).1.volumeData x = none) := by
  refine ⟨rfl, ?_, ?_⟩
  · intro x hx
    exact pass_vol_unfired s now blacklist deliver st.priceHistory symbols
      (st.volumeData, []) x hx
  · intro x hx
    exact pass_vol_fired s now blacklist deliver st.priceHistory symbols
      (st.volumeData, []) x hx (by simp)

theorem analyze_frame_spec_witness :
    ((analyzeStore ⟨5, 2, 5000⟩ 5 (fun x => some (decide (x = "B"))) (fun _ => true)
        ⟨fun _ => [⟨100, 0⟩, ⟨98, 5⟩], fun _ => some ⟨5000, 3⟩⟩ [ "A", "B" ]).1.priceHistory =
      (⟨fun _ => [⟨100, 0⟩, ⟨98, 5⟩], fun _ => some ⟨5000, 3⟩⟩ : Store).priceHistory) ∧
    ((analyzeStore ⟨5, 2, 5000⟩ 5 (fun x => some (decide (x = "B"))) (fun _ => true)
        ⟨fun _ => [⟨100, 0⟩, ⟨98, 5⟩], fun _ => some ⟨5000, 3⟩⟩ [ "A", "B" ]).1.volumeData
      "B" = some ⟨5000, 3⟩) ∧
    ((analyzeStore ⟨5, 2, 5000⟩ 5 (fun x => some (decide (x = "B"))) (fun _ => true)
        ⟨fun _ => [⟨100, 0⟩, ⟨98, 5⟩], fun _ => some ⟨5000, 3⟩⟩ [ "A", "B" ]).1.volumeData
      "A" = none) := by
  have h := analyze_frame_spec ⟨5, 2, 5000⟩ 5 (fun x => some (decide (x = "B")))
    (fun _ => true) ⟨fun _ => [⟨100, 0⟩, ⟨98, 5⟩], fun _ => some ⟨5000, 3⟩⟩ [ "A", "B" ]
  exact ⟨h.1, h.2.1 "B" (by with_unfolding_all decide),
    h.2.2 "A" (by with_unfolding_all decide)⟩
